import Mathlib

/-!
# Verification of the PySpur node-configuration / schema-reconciliation layer

This file gives a shallow embedding, in Lean 4, of the logic of the node
sidebar component (`NodeSidebar`, `src/unnamed/part_000`) and the node
factory (`src/frontend/src/utils/nodeFactory.ts`) of the PySpur front-end,
and proves the testable properties stated in the repository specification.

Modelling conventions:

* JavaScript strings are modelled as Lean `String` (sequences of Unicode
  scalar values).  Lone UTF-16 surrogates are not representable in a Lean
  `Char`; JSON `\uXXXX` escapes denoting surrogate code units are decoded to
  U+FFFD.  No claim below exercises that corner.
* JavaScript numbers appear in the claims only through `temperature` /
  `max_tokens` arithmetic (`Math.min` / `Math.max`), which is exact on the
  values involved; they are modelled as rationals (`ℚ`).  JSON numeric
  literals are kept as raw lexemes - no claim inspects a parsed number.
* JavaScript objects are modelled as association lists in insertion order.
  (The ECMAScript rule that integer-like keys enumerate first is not
  modelled; no claim involves integer-like field names.)
* `JSON.parse` / `JSON.stringify` are the host platform's functions; they
  are modelled below by an executable parser / printer implementing the
  JSON grammar and the ECMAScript serialization algorithm with a two-space
  indent, as the source invokes them.
-/

/-- JSON values, as produced by `JSON.parse`.  Object members are kept in
insertion order with distinct keys (later duplicate keys in the input text
overwrite the value of the earlier occurrence, as in `JSON.parse`).
Numeric literals are kept as their raw lexemes. -/
inductive Json where
  | null : Json
  | bool : Bool → Json
  | num : List Char → Json
  | str : String → Json
  | arr : List Json → Json
  | obj : List (String × Json) → Json
deriving Repr

/-- Lower-case hexadecimal digit for a value `< 16` (as used by
`JSON.stringify` when escaping control characters). -/
def hexDigit (n : Nat) : Char :=
  if n < 10 then Char.ofNat ('0'.toNat + n) else Char.ofNat ('a'.toNat + n - 10)

/-- `JSON.stringify` escaping of a single character inside a string literal
(ECMAScript `QuoteJSONString`). -/
def escapeChar (c : Char) : List Char :=
  if c = '"' then ['\\', '"']
  else if c = '\\' then ['\\', '\\']
  else if c = '\x08' then ['\\', 'b']
  else if c = '\x0c' then ['\\', 'f']
  else if c = '\n' then ['\\', 'n']
  else if c = '\r' then ['\\', 'r']
  else if c = '\t' then ['\\', 't']
  else if c.toNat < 0x20 then
    ['\\', 'u', '0', '0', hexDigit (c.toNat / 16), hexDigit (c.toNat % 16)]
  else [c]

/-- `JSON.stringify` escaping of string contents. -/
def escapeStr (s : List Char) : List Char := (s.map escapeChar).flatten

/-- A JSON string literal: opening quote, escaped contents, closing quote. -/
def quoteStr (s : String) : List Char := '"' :: (escapeStr s.data ++ ['"'])

/-- Skip JSON insignificant whitespace (space, tab, line feed, carriage
return). -/
def skipWs : List Char → List Char
  | c :: cs => if c = ' ' ∨ c = '\t' ∨ c = '\n' ∨ c = '\r' then skipWs cs else c :: cs
  | [] => []

/-- Value of a hexadecimal digit character, if it is one. -/
def hexVal (c : Char) : Option Nat :=
  if '0' ≤ c ∧ c ≤ '9' then some (c.toNat - '0'.toNat)
  else if 'a' ≤ c ∧ c ≤ 'f' then some (c.toNat - 'a'.toNat + 10)
  else if 'A' ≤ c ∧ c ≤ 'F' then some (c.toNat - 'A'.toNat + 10)
  else none

/-- Decode four hexadecimal digits. -/
def hexDecode4 (a b c d : Char) : Option Nat :=
  match hexVal a, hexVal b, hexVal c, hexVal d with
  | some x, some y, some z, some w => some (((x * 16 + y) * 16 + z) * 16 + w)
  | _, _, _, _ => none

/-- The scalar value `n` as a `Char`; code points that are not Unicode
scalar values (UTF-16 surrogates) become U+FFFD (see the header note). -/
def charOfCode (n : Nat) : Char :=
  if n.isValidChar then Char.ofNat n else '�'

/-- Parse the body of a JSON string literal (the opening quote has already
been consumed); returns the decoded contents and the input remaining after
the closing quote.  Unescaped control characters and invalid escapes are
rejected, as in `JSON.parse`. -/
def pStr : List Char → Option (List Char × List Char)
  | [] => none
  | c :: rest =>
    if c = '"' then some ([], rest)
    else if c = '\\' then
      match rest with
      | [] => none
      | e :: rest2 =>
        if e = 'u' then
          match rest2 with
          | h1 :: h2 :: h3 :: h4 :: rest3 =>
            match hexDecode4 h1 h2 h3 h4 with
            | some n => (pStr rest3).map (fun p => (charOfCode n :: p.1, p.2))
            | none => none
          | _ => none
        else if e = '"' then (pStr rest2).map (fun p => ('"' :: p.1, p.2))
        else if e = '\\' then (pStr rest2).map (fun p => ('\\' :: p.1, p.2))
        else if e = '/' then (pStr rest2).map (fun p => ('/' :: p.1, p.2))
        else if e = 'b' then (pStr rest2).map (fun p => ('\x08' :: p.1, p.2))
        else if e = 'f' then (pStr rest2).map (fun p => ('\x0c' :: p.1, p.2))
        else if e = 'n' then (pStr rest2).map (fun p => ('\n' :: p.1, p.2))
        else if e = 'r' then (pStr rest2).map (fun p => ('\r' :: p.1, p.2))
        else if e = 't' then (pStr rest2).map (fun p => ('\t' :: p.1, p.2))
        else none
    else if c.toNat < 0x20 then none
    else (pStr rest).map (fun p => (c :: p.1, p.2))

/-- Take a maximal run of decimal digits. -/
def takeDigits : List Char → (List Char × List Char)
  | c :: cs =>
    if '0' ≤ c ∧ c ≤ '9' then
      let p := takeDigits cs
      (c :: p.1, p.2)
    else ([], c :: cs)
  | [] => ([], [])

/-- Parse the integer part of a JSON number (`0`, or a nonzero digit
followed by digits). -/
def pIntPart : List Char → Option (List Char × List Char)
  | '0' :: cs => some (['0'], cs)
  | c :: cs =>
    if '1' ≤ c ∧ c ≤ '9' then
      let p := takeDigits cs
      some (c :: p.1, p.2)
    else none
  | [] => none

/-- Parse the optional fraction part of a JSON number. -/
def pFracPart : List Char → Option (List Char × List Char)
  | '.' :: cs =>
    match takeDigits cs with
    | ([], _) => none
    | (ds, rest) => some ('.' :: ds, rest)
  | cs => some ([], cs)

/-- Parse the optional exponent part of a JSON number. -/
def pExpPart : List Char → Option (List Char × List Char)
  | c :: cs =>
    if c = 'e' ∨ c = 'E' then
      match cs with
      | s :: cs2 =>
        if s = '+' ∨ s = '-' then
          match takeDigits cs2 with
          | ([], _) => none
          | (ds, rest) => some (c :: s :: ds, rest)
        else
          match takeDigits (s :: cs2) with
          | ([], _) => none
          | (ds, rest) => some (c :: ds, rest)
      | [] => none
    else some ([], c :: cs)
  | [] => some ([], [])

/-- Parse a JSON numeric literal, returning its lexeme. -/
def pNum (cs : List Char) : Option (List Char × List Char) :=
  let (sign, cs1) := match cs with
    | '-' :: rest => (['-'], rest)
    | _ => (([] : List Char), cs)
  match pIntPart cs1 with
  | none => none
  | some (ip, cs2) =>
    match pFracPart cs2 with
    | none => none
    | some (fp, cs3) =>
      match pExpPart cs3 with
      | none => none
      | some (ep, cs4) => some (sign ++ ip ++ fp ++ ep, cs4)

/-- Insert a parsed object member the way `JSON.parse` does: a duplicate
key overwrites the value at the position of its earlier occurrence.  `ms`
is the (already deduplicated) list of the members parsed *after* this
one. -/
def insertMember (k : String) (v : Json) (ms : List (String × Json)) :
    List (String × Json) :=
  match ms.lookup k with
  | some w => (k, w) :: ms.filter (fun p => p.1 ≠ k)
  | none => (k, v) :: ms

mutual
/-- Fueled recursive-descent parser for a JSON value (model of
`JSON.parse`).  The fuel only bounds the nesting of recursive calls; every
recursive call consumes at least one input character first, so fuel
`input length + 1` never runs out (see `parseJson`). -/
def pVal : Nat → List Char → Option (Json × List Char)
  | 0, _ => none
  | fuel + 1, cs =>
    match skipWs cs with
    | 'n' :: 'u' :: 'l' :: 'l' :: rest => some (.null, rest)
    | 't' :: 'r' :: 'u' :: 'e' :: rest => some (.bool true, rest)
    | 'f' :: 'a' :: 'l' :: 's' :: 'e' :: rest => some (.bool false, rest)
    | '"' :: rest => (pStr rest).map (fun p => (.str (String.mk p.1), p.2))
    | '{' :: rest =>
      match skipWs rest with
      | '}' :: rest2 => some (.obj [], rest2)
      | _ => (pMembers fuel rest).map (fun p => (.obj p.1, p.2))
    | '[' :: rest =>
      match skipWs rest with
      | ']' :: rest2 => some (.arr [], rest2)
      | _ => (pElems fuel rest).map (fun p => (.arr p.1, p.2))
    | other => (pNum other).map (fun p => (.num p.1, p.2))

/-- Parse a non-empty comma-separated member list and the closing `}`. -/
def pMembers : Nat → List Char → Option (List (String × Json) × List Char)
  | 0, _ => none
  | fuel + 1, cs =>
    match skipWs cs with
    | '"' :: rest =>
      match pStr rest with
      | none => none
      | some (k, rest1) =>
        match skipWs rest1 with
        | ':' :: rest2 =>
          match pVal fuel rest2 with
          | none => none
          | some (v, rest3) =>
            match skipWs rest3 with
            | ',' :: rest4 =>
                (pMembers fuel rest4).map (fun p => (insertMember (String.mk k) v p.1, p.2))
            | '}' :: rest4 => some ([(String.mk k, v)], rest4)
            | _ => none
        | _ => none
    | _ => none

/-- Parse a non-empty comma-separated element list and the closing `]`. -/
def pElems : Nat → List Char → Option (List Json × List Char)
  | 0, _ => none
  | fuel + 1, cs =>
    match pVal fuel cs with
    | none => none
    | some (v, rest1) =>
      match skipWs rest1 with
      | ',' :: rest2 => (pElems fuel rest2).map (fun p => (v :: p.1, p.2))
      | ']' :: rest2 => some ([v], rest2)
      | _ => none
end

/-- Model of `JSON.parse`: parse one JSON value, requiring only whitespace
to remain. -/
def parseJson (s : String) : Option Json :=
  match pVal (s.data.length + 1) s.data with
  | some (j, rest) => if skipWs rest = [] then some j else none
  | none => none

/-! ## The best-effort cleanup pass and `extractSchemaFromJsonSchema` -/

/-- Characters removed by the JavaScript `String.prototype.trim`
(whitespace and line terminators; the common code points). -/
def isJsWsChar (c : Char) : Bool :=
  c = ' ' ∨ c = '\t' ∨ c = '\n' ∨ c = '\r' ∨ c = '\x0b' ∨ c = '\x0c' ∨
    c = ' ' ∨ c = '﻿' ∨ c = ' ' ∨ c = ' '

/-- Model of `String.prototype.trim`. -/
def jsTrim (s : String) : String :=
  String.mk (((s.data.dropWhile isJsWsChar).reverse.dropWhile isJsWsChar).reverse)

/-- One global-regex replacement `/\\c/g → repl`: every (left-to-right,
non-overlapping) occurrence of a backslash followed by `target` is replaced
by `repl`. -/
def replaceEscaped (target : Char) (repl : List Char) : List Char → List Char
  | '\\' :: c :: rest =>
    if c = target then repl ++ replaceEscaped target repl rest
    else '\\' :: replaceEscaped target repl (c :: rest)
  | c :: rest => c :: replaceEscaped target repl rest
  | [] => []

/-- The cleanup chain of `extractSchemaFromJsonSchema` (source lines 84-91):
un-escape quotes and brackets, drop `\n` / `\t` two-character sequences,
drop remaining backslashes, and trim. -/
def cleanEscapes (s : String) : String :=
  jsTrim (String.mk
    (((((s.data
        |> replaceEscaped '"' ['"'])
        |> replaceEscaped '[' ['['])
        |> replaceEscaped ']' [']'])
        |> replaceEscaped 'n' [])
        |> replaceEscaped 't' []
        |>.filter (fun c => c != '\\')))

/-- JavaScript truthiness of a parsed JSON value (`if (parsed.properties)`).
A numeric literal is falsy when its mantissa digits are all zero. -/
def jsTruthy : Json → Bool
  | .null => false
  | .bool b => b
  | .num l =>
    !((l.takeWhile (fun c => c != 'e' ∧ c != 'E')).all
        (fun c => ¬('1' ≤ c ∧ c ≤ '9')))
  | .str s => !s.isEmpty
  | .arr _ => true
  | .obj _ => true

/-- JavaScript `typeof v === 'object'` on a parsed JSON value (true for
objects, arrays and `null`). -/
def typeofObject : Json → Bool
  | .obj _ => true
  | .arr _ => true
  | .null => true
  | _ => false

/-- JavaScript property access `j[k]` on a parsed JSON value, as an
`Option` (`none` = `undefined`).  Built-in prototype properties are not
modelled; no key used by the source (`properties`, `type`) is one. -/
def getProp (j : Json) (k : String) : Option Json :=
  match j with
  | .obj ms => ms.lookup k
  | _ => none

/-- JavaScript `Object.entries` on a parsed JSON value: members of an
object, indexed elements of an array, indexed one-character strings of a
string, and nothing for primitives. -/
def jEntries : Json → List (String × Json)
  | .obj ms => ms
  | .arr xs => xs.enum.map (fun p => (Nat.repr p.1, p.2))
  | .str s => s.data.enum.map (fun p => (Nat.repr p.1, .str (String.mk [p.2])))
  | _ => []

/-- The member loop of `extractSchemaFromJsonSchema` (source lines 100-104):
for each entry whose value is `typeof 'object'` and has a `type` member,
record `key ↦ value.type`.  Returns `none` when the loop throws
(`'type' in null` raises a `TypeError`, caught by the outer handler).
Entry keys are distinct (they come from `Object.entries`), so plain
consing models the object assignments. -/
def extractProps : List (String × Json) → Option (List (String × Json))
  | [] => some []
  | (k, v) :: rest =>
    match v with
    | .null => none
    | .obj fields =>
      match fields.lookup "type" with
      | some t => (extractProps rest).map (fun sch => (k, t) :: sch)
      | none => extractProps rest
    | _ => extractProps rest

/-- `extractSchemaFromJsonSchema` (the spec's `simplify`, source lines
75-112): parse the text (after `trim`), falling back to a cleanup pass and
a re-parse; then collect `key ↦ type` from the document's `properties`.
All parse failures and thrown `TypeError`s collapse to `none` (= `null`
plus a logged diagnostic).  The extracted type of a field is kept as the
`Json` value found (the source casts it to `string` without checking). -/
def extractSchemaFromJsonSchema (jsonSchema : String) : Option (List (String × Json)) :=
  let parsed? : Option Json :=
    match parseJson (jsTrim jsonSchema) with
    | some p => some p
    | none => parseJson (jsTrim (cleanEscapes jsonSchema))
  match parsed? with
  | none => none
  | some .null => none
  | some parsed =>
    match getProp parsed "properties" with
    | none => none
    | some props =>
      if jsTruthy props then
        match extractProps (jEntries props) with
        | none => none
        | some schema => if 0 < schema.length then some schema else none
      else none

/-! ## `generateJsonSchemaFromSchema` -/

/-- The JSON-schema document object built by `generateJsonSchemaFromSchema`
(source lines 119-128) before serialization: object-typed, every field
required, one `{type: t}` property per field, in insertion order. -/
def schemaDoc (schema : List (String × String)) : Json :=
  .obj [("type", .str "object"),
        ("required", .arr (schema.map (fun p => .str p.1))),
        ("properties", .obj (schema.map (fun p => (p.1, .obj [("type", .str p.2)]))))]

/-- `n` space characters (an indentation gap of `JSON.stringify(v, null, 2)`). -/
def nSpaces (n : Nat) : List Char := List.replicate n ' '

/-- The `required` array elements of the serialized document: each key
quoted on its own line at indent 4, separated by `",\n"`. -/
def reqElems : List String → List Char
  | [] => []
  | [k] => nSpaces 4 ++ quoteStr k
  | k :: k2 :: ks => nSpaces 4 ++ (quoteStr k ++ ',' :: '\n' :: reqElems (k2 :: ks))

/-- One serialized `properties` member at indent 4:
the key, then the object `{"type": t}` spread over three lines. -/
def propMember (k t : String) : List Char :=
  nSpaces 4 ++ (quoteStr k ++ ':' :: ' ' :: '{' :: '\n' ::
    (nSpaces 6 ++ (quoteStr "type" ++ ':' :: ' ' :: quoteStr t ++ '\n' ::
      (nSpaces 4 ++ ['}']))))

/-- The serialized `properties` members, separated by `",\n"`. -/
def propMembers : List (String × String) → List Char
  | [] => []
  | [(k, t)] => propMember k t
  | (k, t) :: m2 :: ms => propMember k t ++ ',' :: '\n' :: propMembers (m2 :: ms)

/-- `JSON.stringify(schemaDoc schema, null, 2)` for a non-empty `schema`:
the ECMAScript serialization algorithm with a two-space gap, specialized
to the fixed three-member document shape built by the source. -/
def genSchemaText (schema : List (String × String)) : List Char :=
  ('{' :: '\n' ::
    ("  \"type\": \"object\",\n  \"required\": [\n".data ++
      (reqElems (schema.map Prod.fst) ++
        ("\n  ],\n  \"properties\": ".data ++ '{' :: '\n' ::
          (propMembers schema ++ '\n' :: (nSpaces 2 ++ '}' :: ['\n'])))))) ++ ['}']

/-- `generateJsonSchemaFromSchema` (the spec's `expand`, source lines
115-135): `null` for an empty mapping or when any field name or type is
falsy (the empty string); otherwise the two-space-indented serialization
of the object-typed document listing every field as required.
(`JSON.stringify` cannot throw on this cycle-free string-valued document,
so the source's `catch` arm is dead.) -/
def generateJsonSchemaFromSchema (schema : List (String × String)) : Option String :=
  if schema.length = 0 then none
  else if schema.any (fun p => p.1.isEmpty || p.2.isEmpty) then none
  else some (String.mk (genSchemaText schema))

/-! ## Parser / printer agreement lemmas -/

theorem skipWs_cons_of_not_ws {c : Char} (cs : List Char)
    (h : ¬(c = ' ' ∨ c = '\t' ∨ c = '\n' ∨ c = '\r')) : skipWs (c :: cs) = c :: cs := by
  simp [skipWs, h]

theorem skipWs_newline (cs : List Char) : skipWs ('\n' :: cs) = skipWs cs := by
  simp [skipWs]

theorem skipWs_nSpaces (n : Nat) (cs : List Char) :
    skipWs (nSpaces n ++ cs) = skipWs cs := by
  induction n with
  | zero => simp [nSpaces]
  | succ k ih => simpa [nSpaces, List.replicate_succ, skipWs] using ih

theorem pVal_congr {f : Nat} {cs1 cs2 : List Char} (h : skipWs cs1 = skipWs cs2) :
    pVal (f + 1) cs1 = pVal (f + 1) cs2 := by
  simp only [pVal, h]

/-- Decoding the two-digit hex escape that `JSON.stringify` emits for a
control character recovers the code point. -/
theorem hexDecode4_hexDigit : ∀ x < 32,
    hexDecode4 '0' '0' (hexDigit (x / 16)) (hexDigit (x % 16)) = some x := by decide

theorem charOfCode_toNat (c : Char) (h : c.toNat < 0xd800) : charOfCode c.toNat = c := by
  have hv : Nat.isValidChar c.toNat := Or.inl h
  simp [charOfCode, hv, Char.ofNat_toNat]

/-- Parsing back one escaped character: `pStr` consumes exactly the escape
sequence `escapeChar c` and prepends `c` to whatever the rest decodes to. -/
theorem pStr_escapeChar (c : Char) (ts : List Char) :
    pStr (escapeChar c ++ ts) = (pStr ts).map (fun p => (c :: p.1, p.2)) := by
  by_cases h1 : c = '"'
  · subst h1; simp only [escapeChar]; norm_num; rw [pStr.eq_def]; simp
  by_cases h2 : c = '\\'
  · subst h2; simp only [escapeChar]; norm_num; rw [pStr.eq_def]; simp
  by_cases h3 : c = '\x08'
  · subst h3; simp only [escapeChar]; norm_num; rw [pStr.eq_def]; simp
  by_cases h4 : c = '\x0c'
  · subst h4; simp only [escapeChar]; norm_num; rw [pStr.eq_def]; simp
  by_cases h5 : c = '\n'
  · subst h5; simp only [escapeChar]; norm_num; rw [pStr.eq_def]; simp
  by_cases h6 : c = '\r'
  · subst h6; simp only [escapeChar]; norm_num; rw [pStr.eq_def]; simp
  by_cases h7 : c = '\t'
  · subst h7; simp only [escapeChar]; norm_num; rw [pStr.eq_def]; simp
  by_cases h8 : c.toNat < 0x20
  · have hd : hexDecode4 '0' '0' (hexDigit (c.toNat / 16)) (hexDigit (c.toNat % 16)) =
        some c.toNat := hexDecode4_hexDigit c.toNat h8
    have hc : charOfCode c.toNat = c := charOfCode_toNat c (by omega)
    have hesc : escapeChar c =
        ['\\', 'u', '0', '0', hexDigit (c.toNat / 16), hexDigit (c.toNat % 16)] := by
      simp [escapeChar, h1, h2, h3, h4, h5, h6, h7, h8]
    rw [hesc]
    show (match hexDecode4 '0' '0' (hexDigit (c.toNat / 16)) (hexDigit (c.toNat % 16)) with
      | some n => (pStr ts).map (fun p => (charOfCode n :: p.1, p.2))
      | none => none) = (pStr ts).map (fun p => (c :: p.1, p.2))
    simp only [hd, hc]
  · have hesc : escapeChar c = [c] := by
      simp [escapeChar, h1, h2, h3, h4, h5, h6, h7, h8]
    rw [hesc]
    show pStr (c :: ts) = (pStr ts).map (fun p => (c :: p.1, p.2))
    rw [pStr.eq_def]
    simp [h1, h2, h8]

/-- Parsing back an escaped string body: the decoder inverts
`JSON.stringify`'s escaping up to the closing quote. -/
theorem pStr_escapeStr (s : List Char) (rest : List Char) :
    pStr (escapeStr s ++ '"' :: rest) = some (s, rest) := by
  induction s with
  | nil =>
    show pStr ('"' :: rest) = some ([], rest)
    rw [pStr.eq_def]
    simp
  | cons c s ih =>
    have h : escapeStr (c :: s) ++ '"' :: rest = escapeChar c ++ (escapeStr s ++ '"' :: rest) := by
      simp [escapeStr]
    rw [h, pStr_escapeChar, ih]
    rfl

/-- A serialized string literal parses back as a `Json.str` value. -/
theorem pVal_quoteStr (f : Nat) (k : String) (rest : List Char) :
    pVal (f + 1) (quoteStr k ++ rest) = some (.str k, rest) := by
  have h : quoteStr k ++ rest = '"' :: (escapeStr k.data ++ '"' :: rest) := by
    simp [quoteStr]
  rw [h]
  show (pStr (escapeStr k.data ++ '"' :: rest)).map
      (fun p => (Json.str (String.mk p.1), p.2)) = some (.str k, rest)
  rw [pStr_escapeStr]
  rfl

theorem lookup_eq_none_of_not_mem {β : Type} (k : String) :
    ∀ ms : List (String × β), k ∉ ms.map Prod.fst → ms.lookup k = none := by
  intro ms
  induction ms with
  | nil => intro _; rfl
  | cons m ms ih =>
    intro h
    simp only [List.map_cons, List.mem_cons] at h
    push_neg at h
    have hne : (k == m.1) = false := by
      simpa [beq_iff_eq] using h.1
    simp [List.lookup, hne, ih h.2]

theorem insertMember_of_not_mem (k : String) (v : Json) (ms : List (String × Json))
    (h : k ∉ ms.map Prod.fst) : insertMember k v ms = (k, v) :: ms := by
  simp [insertMember, lookup_eq_none_of_not_mem k ms h]

/-- One non-final object member: consume `"key": value,` and continue. -/
theorem pMembers_cons_step (f : Nat) (k : String) (v : Json)
    (cs valText after next : List Char)
    (hcs : skipWs cs = quoteStr k ++ ':' :: valText)
    (hval : pVal f valText = some (v, after))
    (hafter : skipWs after = ',' :: next) :
    pMembers (f + 1) cs = (pMembers f next).map (fun p => (insertMember k v p.1, p.2)) := by
  rw [pMembers, hcs]
  have h2 : quoteStr k ++ ':' :: valText =
      '"' :: (escapeStr k.data ++ '"' :: ':' :: valText) := by
    simp [quoteStr]
  rw [h2]
  simp only [pStr_escapeStr]
  have h3 : skipWs (':' :: valText) = ':' :: valText :=
    skipWs_cons_of_not_ws _ (by decide)
  simp only [h3, hval, hafter]

/-- The final object member: consume `"key": value}`. -/
theorem pMembers_last_step (f : Nat) (k : String) (v : Json)
    (cs valText after next : List Char)
    (hcs : skipWs cs = quoteStr k ++ ':' :: valText)
    (hval : pVal f valText = some (v, after))
    (hafter : skipWs after = '}' :: next) :
    pMembers (f + 1) cs = some ([(k, v)], next) := by
  rw [pMembers, hcs]
  have h2 : quoteStr k ++ ':' :: valText =
      '"' :: (escapeStr k.data ++ '"' :: ':' :: valText) := by
    simp [quoteStr]
  rw [h2]
  simp only [pStr_escapeStr]
  have h3 : skipWs (':' :: valText) = ':' :: valText :=
    skipWs_cons_of_not_ws _ (by decide)
  simp only [h3, hval, hafter]

/-- One non-final array element. -/
theorem pElems_cons_step (f : Nat) (v : Json) (cs after next : List Char)
    (hval : pVal f cs = some (v, after))
    (hafter : skipWs after = ',' :: next) :
    pElems (f + 1) cs = (pElems f next).map (fun p => (v :: p.1, p.2)) := by
  rw [pElems, hval]
  simp only [hafter]

/-- The final array element. -/
theorem pElems_last_step (f : Nat) (v : Json) (cs after next : List Char)
    (hval : pVal f cs = some (v, after))
    (hafter : skipWs after = ']' :: next) :
    pElems (f + 1) cs = some ([v], next) := by
  rw [pElems, hval]
  simp only [hafter]

theorem skipWs_space (cs : List Char) : skipWs (' ' :: cs) = skipWs cs := by
  simp [skipWs]

theorem skipWs_quoteStr (k : String) (zs : List Char) :
    skipWs (quoteStr k ++ zs) = quoteStr k ++ zs := rfl

/-- The serialized property value `{ "type": t }` (as laid out at property
depth by the two-space-gap serialization) parses back. -/
theorem pVal_propVal (f : Nat) (t : String) (rest : List Char) :
    pVal (f + 3) (' ' :: '{' :: '\n' :: (nSpaces 6 ++ (quoteStr "type" ++ ':' :: ' ' ::
      (quoteStr t ++ '\n' :: (nSpaces 4 ++ '}' :: rest))))) =
    some (.obj [("type", .str t)], rest) := by
  have h0 : pVal (f + 3) (' ' :: '{' :: '\n' :: (nSpaces 6 ++ (quoteStr "type" ++ ':' :: ' ' ::
      (quoteStr t ++ '\n' :: (nSpaces 4 ++ '}' :: rest))))) =
      pVal (f + 3) ('{' :: '\n' :: (nSpaces 6 ++ (quoteStr "type" ++ ':' :: ' ' ::
      (quoteStr t ++ '\n' :: (nSpaces 4 ++ '}' :: rest))))) := by
    exact pVal_congr (skipWs_space _)
  rw [h0]
  show (pMembers (f + 2) ('\n' :: (nSpaces 6 ++ (quoteStr "type" ++ ':' :: ' ' ::
      (quoteStr t ++ '\n' :: (nSpaces 4 ++ '}' :: rest)))))).map
      (fun p => (Json.obj p.1, p.2)) =
    some (.obj [("type", .str t)], rest)
  have hcs : skipWs ('\n' :: (nSpaces 6 ++ (quoteStr "type" ++ ':' :: ' ' ::
      (quoteStr t ++ '\n' :: (nSpaces 4 ++ '}' :: rest))))) =
      quoteStr "type" ++ ':' :: (' ' :: (quoteStr t ++ '\n' :: (nSpaces 4 ++ '}' :: rest))) := by
    rw [skipWs_newline, skipWs_nSpaces, skipWs_quoteStr]
  have hval : pVal (f + 1) (' ' :: (quoteStr t ++ '\n' :: (nSpaces 4 ++ '}' :: rest))) =
      some (.str t, '\n' :: (nSpaces 4 ++ '}' :: rest)) := by
    rw [pVal_congr (skipWs_space _), pVal_quoteStr]
  have hafter : skipWs ('\n' :: (nSpaces 4 ++ '}' :: rest)) = '}' :: rest := by
    rw [skipWs_newline, skipWs_nSpaces]
    exact skipWs_cons_of_not_ws _ (by decide)
  rw [pMembers_last_step (f + 1) "type" (.str t) _ _ _ _ hcs hval hafter]
  rfl

/-- The serialized `required` array body parses back to the list of keys. -/
theorem pElems_reqElems : ∀ (ks : List String) (k : String) (g : Nat) (rest : List Char),
    pElems (g + ks.length + 2)
        ('\n' :: (reqElems (k :: ks) ++ '\n' :: (nSpaces 2 ++ ']' :: rest))) =
      some ((k :: ks).map Json.str, rest) := by
  intro ks
  induction ks with
  | nil =>
    intro k g rest
    have hval : pVal (g + 1)
        ('\n' :: (reqElems [k] ++ '\n' :: (nSpaces 2 ++ ']' :: rest))) =
        some (.str k, '\n' :: (nSpaces 2 ++ ']' :: rest)) := by
      have h1 : '\n' :: (reqElems [k] ++ '\n' :: (nSpaces 2 ++ ']' :: rest)) =
          '\n' :: (nSpaces 4 ++ (quoteStr k ++ '\n' :: (nSpaces 2 ++ ']' :: rest))) := by
        simp [reqElems]
      rw [h1]
      have h2 : skipWs ('\n' :: (nSpaces 4 ++ (quoteStr k ++ '\n' :: (nSpaces 2 ++ ']' :: rest)))) =
          skipWs (quoteStr k ++ '\n' :: (nSpaces 2 ++ ']' :: rest)) := by
        rw [skipWs_newline, skipWs_nSpaces]
      rw [pVal_congr h2, pVal_quoteStr]
    have hafter : skipWs ('\n' :: (nSpaces 2 ++ ']' :: rest)) = ']' :: rest := by
      rw [skipWs_newline, skipWs_nSpaces]
      exact skipWs_cons_of_not_ws _ (by decide)
    have hfuel : g + List.length ([] : List String) + 2 = (g + 1) + 1 := by simp
    rw [hfuel, pElems_last_step (g + 1) (.str k) _ _ _ hval hafter]
    simp
  | cons k2 ks2 ih =>
    intro k g rest
    have hshape : '\n' :: (reqElems (k :: k2 :: ks2) ++ '\n' :: (nSpaces 2 ++ ']' :: rest)) =
        '\n' :: (nSpaces 4 ++ (quoteStr k ++ ',' ::
          ('\n' :: (reqElems (k2 :: ks2) ++ '\n' :: (nSpaces 2 ++ ']' :: rest))))) := by
      simp [reqElems]
    have hval : pVal (g + ks2.length + 2)
        ('\n' :: (reqElems (k :: k2 :: ks2) ++ '\n' :: (nSpaces 2 ++ ']' :: rest))) =
        some (.str k, ',' ::
          ('\n' :: (reqElems (k2 :: ks2) ++ '\n' :: (nSpaces 2 ++ ']' :: rest)))) := by
      rw [hshape]
      have h2 : skipWs ('\n' :: (nSpaces 4 ++ (quoteStr k ++ ',' ::
          ('\n' :: (reqElems (k2 :: ks2) ++ '\n' :: (nSpaces 2 ++ ']' :: rest)))))) =
          skipWs (quoteStr k ++ ',' ::
          ('\n' :: (reqElems (k2 :: ks2) ++ '\n' :: (nSpaces 2 ++ ']' :: rest)))) := by
        rw [skipWs_newline, skipWs_nSpaces]
      rw [pVal_congr h2, pVal_quoteStr]
    have hafter : skipWs (',' ::
        ('\n' :: (reqElems (k2 :: ks2) ++ '\n' :: (nSpaces 2 ++ ']' :: rest)))) =
        ',' :: ('\n' :: (reqElems (k2 :: ks2) ++ '\n' :: (nSpaces 2 ++ ']' :: rest))) :=
      skipWs_cons_of_not_ws _ (by decide)
    have hfuel : g + (k2 :: ks2).length + 2 = (g + ks2.length + 2) + 1 := by
      simp [List.length_cons]; omega
    rw [hfuel, pElems_cons_step (g + ks2.length + 2) (.str k) _ _ _ hval hafter, ih k2 g rest]
    simp

/-- The serialized `properties` object body parses back to the property
list (distinct keys make `insertMember` plain consing). -/
theorem pMembers_propMembers : ∀ (ms : List (String × String)) (m : String × String)
    (g : Nat) (rest : List Char), ((m :: ms).map Prod.fst).Nodup →
    pMembers (g + ms.length + 4)
        ('\n' :: (propMembers (m :: ms) ++ '\n' :: (nSpaces 2 ++ '}' :: rest))) =
      some ((m :: ms).map (fun p => (p.1, Json.obj [("type", Json.str p.2)])), rest) := by
  intro ms
  induction ms with
  | nil =>
    intro m g rest _
    obtain ⟨k, t⟩ := m
    have hshape : '\n' :: (propMembers [(k, t)] ++ '\n' :: (nSpaces 2 ++ '}' :: rest)) =
        '\n' :: (nSpaces 4 ++ (quoteStr k ++ ':' :: (' ' :: '{' :: '\n' ::
          (nSpaces 6 ++ (quoteStr "type" ++ ':' :: ' ' ::
            (quoteStr t ++ '\n' :: (nSpaces 4 ++ '}' ::
              ('\n' :: (nSpaces 2 ++ '}' :: rest))))))))) := by
      simp [propMembers, propMember]
    have hcs : skipWs ('\n' :: (propMembers [(k, t)] ++ '\n' :: (nSpaces 2 ++ '}' :: rest))) =
        quoteStr k ++ ':' :: (' ' :: '{' :: '\n' ::
          (nSpaces 6 ++ (quoteStr "type" ++ ':' :: ' ' ::
            (quoteStr t ++ '\n' :: (nSpaces 4 ++ '}' ::
              ('\n' :: (nSpaces 2 ++ '}' :: rest))))))) := by
      rw [hshape, skipWs_newline, skipWs_nSpaces, skipWs_quoteStr]
    have hval := pVal_propVal g t ('\n' :: (nSpaces 2 ++ '}' :: rest))
    have hafter : skipWs ('\n' :: (nSpaces 2 ++ '}' :: rest)) = '}' :: rest := by
      rw [skipWs_newline, skipWs_nSpaces]
      exact skipWs_cons_of_not_ws _ (by decide)
    have hfuel : g + List.length ([] : List (String × String)) + 4 = (g + 3) + 1 := by simp
    rw [hfuel,
      pMembers_last_step (g + 3) k (Json.obj [("type", Json.str t)]) _ _ _ _ hcs hval hafter]
    simp
  | cons m2 ms2 ih =>
    intro m g rest hnd
    obtain ⟨k, t⟩ := m
    have hshape : '\n' :: (propMembers ((k, t) :: m2 :: ms2) ++ '\n' :: (nSpaces 2 ++ '}' :: rest)) =
        '\n' :: (nSpaces 4 ++ (quoteStr k ++ ':' :: (' ' :: '{' :: '\n' ::
          (nSpaces 6 ++ (quoteStr "type" ++ ':' :: ' ' ::
            (quoteStr t ++ '\n' :: (nSpaces 4 ++ '}' ::
              (',' :: ('\n' :: (propMembers (m2 :: ms2) ++
                '\n' :: (nSpaces 2 ++ '}' :: rest))))))))))) := by
      simp [propMembers, propMember]
    have hcs : skipWs ('\n' :: (propMembers ((k, t) :: m2 :: ms2) ++
        '\n' :: (nSpaces 2 ++ '}' :: rest))) =
        quoteStr k ++ ':' :: (' ' :: '{' :: '\n' ::
          (nSpaces 6 ++ (quoteStr "type" ++ ':' :: ' ' ::
            (quoteStr t ++ '\n' :: (nSpaces 4 ++ '}' ::
              (',' :: ('\n' :: (propMembers (m2 :: ms2) ++
                '\n' :: (nSpaces 2 ++ '}' :: rest))))))))) := by
      rw [hshape, skipWs_newline, skipWs_nSpaces, skipWs_quoteStr]
    have hval := pVal_propVal (g + ms2.length + 1) t
      (',' :: ('\n' :: (propMembers (m2 :: ms2) ++ '\n' :: (nSpaces 2 ++ '}' :: rest))))
    have hafter : skipWs
        (',' :: ('\n' :: (propMembers (m2 :: ms2) ++ '\n' :: (nSpaces 2 ++ '}' :: rest)))) =
        ',' :: ('\n' :: (propMembers (m2 :: ms2) ++ '\n' :: (nSpaces 2 ++ '}' :: rest))) :=
      skipWs_cons_of_not_ws _ (by decide)
    have hnd2 : (k :: (m2 :: ms2).map Prod.fst).Nodup := by simpa using hnd
    have hk : k ∉ (m2 :: ms2).map Prod.fst := (List.nodup_cons.mp hnd2).1
    have htail : ((m2 :: ms2).map Prod.fst).Nodup := (List.nodup_cons.mp hnd2).2
    have hfuel : g + (m2 :: ms2).length + 4 = (g + ms2.length + 4) + 1 := by
      simp [List.length_cons]; omega
    rw [hfuel,
      pMembers_cons_step (g + ms2.length + 4) k (Json.obj [("type", Json.str t)]) _ _ _ _
        hcs hval hafter,
      ih m2 g rest htail]
    have hins : insertMember k (Json.obj [("type", Json.str t)])
        ((m2.1, Json.obj [("type", Json.str m2.2)]) ::
          ms2.map (fun p => (p.1, Json.obj [("type", Json.str p.2)]))) =
        (k, Json.obj [("type", Json.str t)]) ::
          (m2.1, Json.obj [("type", Json.str m2.2)]) ::
          ms2.map (fun p => (p.1, Json.obj [("type", Json.str p.2)])) := by
      refine insertMember_of_not_mem k _ _ ?_
      simpa using hk
    simp [hins]

/-- View of the generated text from the `properties` value onward
(after the `"properties":` key). -/
def propsTail (m : List (String × String)) (rest : List Char) : List Char :=
  ' ' :: ('{' :: ('\n' :: (propMembers m ++ '\n' :: (nSpaces 2 ++ '}' :: ('\n' :: ('}' :: rest))))))

/-- View of the generated text from the `"properties"` member onward. -/
def propsMemberTail (m : List (String × String)) (rest : List Char) : List Char :=
  '\n' :: (nSpaces 2 ++ (quoteStr "properties" ++ ':' :: propsTail m rest))

/-- View of the generated text from the `required` value onward. -/
def reqTail (m : List (String × String)) (rest : List Char) : List Char :=
  ' ' :: ('[' :: ('\n' :: (reqElems (m.map Prod.fst) ++
    ('\n' :: (nSpaces 2 ++ ']' :: (',' :: propsMemberTail m rest))))))

/-- View of the generated text from the `"required"` member onward. -/
def reqMemberTail (m : List (String × String)) (rest : List Char) : List Char :=
  '\n' :: (nSpaces 2 ++ (quoteStr "required" ++ ':' :: reqTail m rest))

/-- View of the generated text from the `"type"` member's value onward. -/
def typeTail (m : List (String × String)) (rest : List Char) : List Char :=
  ' ' :: (quoteStr "object" ++ ',' :: reqMemberTail m rest)

/-- Entering an array whose first element is not `]`. -/
theorem pVal_openBracket (f : Nat) (cs r : List Char) (c : Char)
    (h : skipWs cs = c :: r) (hc : ¬(c = ']')) :
    pVal (f + 1) ('[' :: cs) = (pElems f cs).map (fun p => (.arr p.1, p.2)) := by
  have h0 : skipWs ('[' :: cs) = '[' :: cs := skipWs_cons_of_not_ws _ (by decide)
  rw [pVal, h0]
  simp only [h]
  simp [hc]

/-- Entering an object whose first member is not `}`. -/
theorem pVal_openBrace (f : Nat) (cs r : List Char) (c : Char)
    (h : skipWs cs = c :: r) (hc : ¬(c = '}')) :
    pVal (f + 1) ('{' :: cs) = (pMembers f cs).map (fun p => (.obj p.1, p.2)) := by
  have h0 : skipWs ('{' :: cs) = '{' :: cs := skipWs_cons_of_not_ws _ (by decide)
  rw [pVal, h0]
  simp only [h]
  simp [hc]

theorem skipWs_reqElems_head (k : String) (ks : List String) (X : List Char) :
    ∃ r, skipWs ('\n' :: (reqElems (k :: ks) ++ X)) = '"' :: r := by
  cases ks with
  | nil =>
    refine ⟨(escapeStr k.data ++ ['"']) ++ X, ?_⟩
    have h1 : reqElems [k] ++ X = nSpaces 4 ++ (quoteStr k ++ X) := by
      simp [reqElems]
    rw [skipWs_newline, h1, skipWs_nSpaces, skipWs_quoteStr]
    simp [quoteStr]
  | cons k2 ks2 =>
    refine ⟨(escapeStr k.data ++ ['"']) ++
      (',' :: ('\n' :: (reqElems (k2 :: ks2) ++ X))), ?_⟩
    have h1 : reqElems (k :: k2 :: ks2) ++ X =
        nSpaces 4 ++ (quoteStr k ++ (',' :: ('\n' :: (reqElems (k2 :: ks2) ++ X)))) := by
      simp [reqElems]
    rw [skipWs_newline, h1, skipWs_nSpaces, skipWs_quoteStr]
    simp [quoteStr]

theorem skipWs_propMembers_head (m : String × String) (ms : List (String × String))
    (X : List Char) :
    ∃ r, skipWs ('\n' :: (propMembers (m :: ms) ++ X)) = '"' :: r := by
  obtain ⟨k, t⟩ := m
  cases ms with
  | nil =>
    refine ⟨(escapeStr k.data ++ ['"']) ++ (':' :: ' ' :: '{' :: '\n' ::
      (nSpaces 6 ++ (quoteStr "type" ++ ':' :: ' ' ::
        (quoteStr t ++ '\n' :: (nSpaces 4 ++ ['}']))))) ++ X, ?_⟩
    have h1 : propMembers [(k, t)] ++ X = nSpaces 4 ++ (quoteStr k ++
        ((':' :: ' ' :: '{' :: '\n' ::
          (nSpaces 6 ++ (quoteStr "type" ++ ':' :: ' ' ::
            (quoteStr t ++ '\n' :: (nSpaces 4 ++ ['}']))))) ++ X)) := by
      simp [propMembers, propMember]
    rw [skipWs_newline, h1, skipWs_nSpaces, skipWs_quoteStr]
    simp [quoteStr]
  | cons m2 ms2 =>
    refine ⟨(escapeStr k.data ++ ['"']) ++ ((':' :: ' ' :: '{' :: '\n' ::
      (nSpaces 6 ++ (quoteStr "type" ++ ':' :: ' ' ::
        (quoteStr t ++ '\n' :: (nSpaces 4 ++ ['}']))))) ++
      (',' :: '\n' :: (propMembers (m2 :: ms2) ++ X))), ?_⟩
    have h1 : propMembers ((k, t) :: m2 :: ms2) ++ X = nSpaces 4 ++ (quoteStr k ++
        ((':' :: ' ' :: '{' :: '\n' ::
          (nSpaces 6 ++ (quoteStr "type" ++ ':' :: ' ' ::
            (quoteStr t ++ '\n' :: (nSpaces 4 ++ ['}']))))) ++
          (',' :: '\n' :: (propMembers (m2 :: ms2) ++ X)))) := by
      simp [propMembers, propMember]
    rw [skipWs_newline, h1, skipWs_nSpaces, skipWs_quoteStr]
    simp [quoteStr]

/-- The full serialized schema document parses back to `schemaDoc`. -/
theorem pVal_genText (mh : String × String) (mt : List (String × String)) (g : Nat)
    (rest : List Char) (hnd : ((mh :: mt).map Prod.fst).Nodup) :
    pVal (g + mt.length + 9) (genSchemaText (mh :: mt) ++ rest) =
      some (schemaDoc (mh :: mt), rest) := by
  have hflat : genSchemaText (mh :: mt) ++ rest =
      '{' :: ('\n' :: ("  \"type\": \"object\",\n  \"required\": [\n".data ++
        (reqElems ((mh :: mt).map Prod.fst) ++
          ("\n  ],\n  \"properties\": ".data ++ '{' :: '\n' ::
            (propMembers (mh :: mt) ++
              '\n' :: (nSpaces 2 ++ '}' :: ('\n' :: ('}' :: rest)))))))) := by
    simp [genSchemaText, List.append_assoc]
  rw [hflat]
  have hcs1 : skipWs ('\n' :: ("  \"type\": \"object\",\n  \"required\": [\n".data ++
      (reqElems ((mh :: mt).map Prod.fst) ++
        ("\n  ],\n  \"properties\": ".data ++ '{' :: '\n' ::
          (propMembers (mh :: mt) ++
            '\n' :: (nSpaces 2 ++ '}' :: ('\n' :: ('}' :: rest)))))))) =
      quoteStr "type" ++ ':' :: typeTail (mh :: mt) rest := by
    rfl
  obtain ⟨rh, hhead⟩ : ∃ rh, skipWs ('\n' ::
      ("  \"type\": \"object\",\n  \"required\": [\n".data ++
      (reqElems ((mh :: mt).map Prod.fst) ++
        ("\n  ],\n  \"properties\": ".data ++ '{' :: '\n' ::
          (propMembers (mh :: mt) ++
            '\n' :: (nSpaces 2 ++ '}' :: ('\n' :: ('}' :: rest)))))))) = '"' :: rh := by
    refine ⟨(escapeStr "type".data ++ ['"']) ++ ':' :: typeTail (mh :: mt) rest, ?_⟩
    rw [hcs1]
    simp [quoteStr]
  rw [pVal_openBrace (g + mt.length + 8) _ rh '"' hhead (by decide)]
  have hval1 : pVal (g + mt.length + 7) (typeTail (mh :: mt) rest) =
      some (.str "object", ',' :: reqMemberTail (mh :: mt) rest) := by
    show pVal (g + mt.length + 7)
      (' ' :: (quoteStr "object" ++ ',' :: reqMemberTail (mh :: mt) rest)) = _
    rw [pVal_congr (skipWs_space _), pVal_quoteStr]
  have hafter1 : skipWs (',' :: reqMemberTail (mh :: mt) rest) =
      ',' :: reqMemberTail (mh :: mt) rest := skipWs_cons_of_not_ws _ (by decide)
  rw [pMembers_cons_step (g + mt.length + 7) "type" (.str "object") _ _ _ _
    hcs1 hval1 hafter1]
  have hcs2 : skipWs (reqMemberTail (mh :: mt) rest) =
      quoteStr "required" ++ ':' :: reqTail (mh :: mt) rest := by
    rw [reqMemberTail, skipWs_newline, skipWs_nSpaces, skipWs_quoteStr]
  have hval2 : pVal (g + mt.length + 6) (reqTail (mh :: mt) rest) =
      some (.arr ((mh.1 :: mt.map Prod.fst).map Json.str),
        ',' :: propsMemberTail (mh :: mt) rest) := by
    show pVal (g + mt.length + 6) (' ' :: ('[' ::
      ('\n' :: (reqElems ((mh :: mt).map Prod.fst) ++
        ('\n' :: (nSpaces 2 ++ ']' :: (',' :: propsMemberTail (mh :: mt) rest))))))) = _
    rw [pVal_congr (skipWs_space _)]
    simp only [List.map_cons]
    obtain ⟨r2, h2⟩ := skipWs_reqElems_head mh.1 (mt.map Prod.fst)
      ('\n' :: (nSpaces 2 ++ ']' :: (',' :: propsMemberTail (mh :: mt) rest)))
    rw [pVal_openBracket (g + mt.length + 5) _ r2 '"' h2 (by decide)]
    have hreq := pElems_reqElems (mt.map Prod.fst) mh.1 (g + 3)
      (',' :: propsMemberTail (mh :: mt) rest)
    have hfu : g + 3 + (mt.map Prod.fst).length + 2 = g + mt.length + 5 := by
      rw [List.length_map]; omega
    rw [hfu] at hreq
    rw [hreq]
    simp
  have hafter2 : skipWs (',' :: propsMemberTail (mh :: mt) rest) =
      ',' :: propsMemberTail (mh :: mt) rest := skipWs_cons_of_not_ws _ (by decide)
  rw [pMembers_cons_step (g + mt.length + 6) "required"
    (.arr ((mh.1 :: mt.map Prod.fst).map Json.str)) _ _ _ _ hcs2 hval2 hafter2]
  have hcs3 : skipWs (propsMemberTail (mh :: mt) rest) =
      quoteStr "properties" ++ ':' :: propsTail (mh :: mt) rest := by
    rw [propsMemberTail, skipWs_newline, skipWs_nSpaces, skipWs_quoteStr]
  have hval3 : pVal (g + mt.length + 5) (propsTail (mh :: mt) rest) =
      some (.obj ((mh :: mt).map (fun p => (p.1, Json.obj [("type", Json.str p.2)]))),
        '\n' :: ('}' :: rest)) := by
    show pVal (g + mt.length + 5) (' ' :: ('{' ::
      ('\n' :: (propMembers (mh :: mt) ++
        '\n' :: (nSpaces 2 ++ '}' :: ('\n' :: ('}' :: rest))))))) = _
    rw [pVal_congr (skipWs_space _)]
    obtain ⟨r3, h3⟩ := skipWs_propMembers_head mh mt
      ('\n' :: (nSpaces 2 ++ '}' :: ('\n' :: ('}' :: rest))))
    rw [pVal_openBrace (g + mt.length + 4) _ r3 '"' h3 (by decide)]
    rw [pMembers_propMembers mt mh g ('\n' :: ('}' :: rest)) hnd]
    rfl
  have hafter3 : skipWs ('\n' :: ('}' :: rest)) = '}' :: rest := by
    rw [skipWs_newline]
    exact skipWs_cons_of_not_ws _ (by decide)
  rw [pMembers_last_step (g + mt.length + 5) "properties"
    (.obj ((mh :: mt).map (fun p => (p.1, Json.obj [("type", Json.str p.2)]))))
    _ _ _ _ hcs3 hval3 hafter3]
  have hi1 : insertMember "required" (.arr ((mh.1 :: mt.map Prod.fst).map Json.str))
      [("properties", Json.obj ((mh :: mt).map (fun p => (p.1,
        Json.obj [("type", Json.str p.2)]))))] =
      [("required", .arr ((mh.1 :: mt.map Prod.fst).map Json.str)),
       ("properties", Json.obj ((mh :: mt).map (fun p => (p.1,
        Json.obj [("type", Json.str p.2)]))))] :=
    insertMember_of_not_mem _ _ _ (by simp)
  have hi2 : insertMember "type" (.str "object")
      [("required", .arr ((mh.1 :: mt.map Prod.fst).map Json.str)),
       ("properties", Json.obj ((mh :: mt).map (fun p => (p.1,
        Json.obj [("type", Json.str p.2)]))))] =
      [("type", .str "object"),
       ("required", .arr ((mh.1 :: mt.map Prod.fst).map Json.str)),
       ("properties", Json.obj ((mh :: mt).map (fun p => (p.1,
        Json.obj [("type", Json.str p.2)]))))] :=
    insertMember_of_not_mem _ _ _ (by simp)
  simp only [Option.map_some']
  rw [hi1, hi2]
  simp [schemaDoc, List.map_map, Function.comp]

theorem quoteStr_length (k : String) : 2 ≤ (quoteStr k).length := by
  simp [quoteStr]

theorem reqElems_length : ∀ (ks : List String), ks.length ≤ (reqElems ks).length := by
  intro ks
  induction ks with
  | nil => simp [reqElems]
  | cons k ks ih =>
    cases ks with
    | nil => simp [reqElems, nSpaces]
    | cons k2 ks2 =>
      have hq := quoteStr_length k
      simp only [reqElems, List.length_append, List.length_cons, nSpaces,
        List.length_replicate] at *
      omega

theorem propMembers_length : ∀ (ms : List (String × String)),
    ms.length ≤ (propMembers ms).length := by
  intro ms
  induction ms with
  | nil => simp [propMembers]
  | cons m ms ih =>
    obtain ⟨k, t⟩ := m
    cases ms with
    | nil => simp [propMembers, propMember, nSpaces]
    | cons m2 ms2 =>
      simp only [propMembers, List.length_append, List.length_cons] at *
      omega

theorem genSchemaText_length (m : List (String × String)) :
    m.length + 8 ≤ (genSchemaText m).length := by
  have h1 := reqElems_length (m.map Prod.fst)
  have h2 := propMembers_length m
  have h3 : (m.map Prod.fst).length = m.length := by simp
  have h4 : ("  \"type\": \"object\",\n  \"required\": [\n".data).length = 36 := by decide
  have h5 : ("\n  ],\n  \"properties\": ".data).length = 22 := by decide
  simp only [genSchemaText, List.length_append, List.length_cons, nSpaces,
    List.length_replicate, h4, h5]
  omega

/-- `JSON.parse` succeeds on the serialized schema document of a non-empty
mapping with distinct keys and returns the document. -/
theorem parseJson_genText (mh : String × String) (mt : List (String × String))
    (hnd : ((mh :: mt).map Prod.fst).Nodup) :
    parseJson (String.mk (genSchemaText (mh :: mt))) = some (schemaDoc (mh :: mt)) := by
  have hlen := genSchemaText_length (mh :: mt)
  simp only [List.length_cons] at hlen
  have hg : (genSchemaText (mh :: mt)).length + 1 =
      ((genSchemaText (mh :: mt)).length + 1 - (mt.length + 9)) + mt.length + 9 := by
    omega
  have hp := pVal_genText mh mt
    ((genSchemaText (mh :: mt)).length + 1 - (mt.length + 9)) [] hnd
  rw [List.append_nil] at hp
  show (match pVal ((genSchemaText (mh :: mt)).length + 1) (genSchemaText (mh :: mt)) with
    | some (j, rest) => if skipWs rest = [] then some j else none
    | none => none) = some (schemaDoc (mh :: mt))
  rw [hg, hp]
  rfl

theorem isJsWsChar_lbrace : isJsWsChar '{' = false := by decide

theorem isJsWsChar_rbrace : isJsWsChar '}' = false := by decide

/-- The generated text starts with `{` and ends with `}`, so the source's
`trim()` leaves it unchanged. -/
theorem jsTrim_genText (m : List (String × String)) :
    jsTrim (String.mk (genSchemaText m)) = String.mk (genSchemaText m) := by
  obtain ⟨T, hT⟩ : ∃ T, genSchemaText m = '{' :: (T ++ ['}']) := by
    refine ⟨'\n' :: ("  \"type\": \"object\",\n  \"required\": [\n".data ++
      (reqElems (m.map Prod.fst) ++
        ("\n  ],\n  \"properties\": ".data ++ '{' :: '\n' ::
          (propMembers m ++ '\n' :: (nSpaces 2 ++ '}' :: ['\n']))))), ?_⟩
    simp [genSchemaText]
  rw [hT, jsTrim]
  congr 1
  rw [List.dropWhile_cons_of_neg (by simp [isJsWsChar_lbrace])]
  have h2 : ('{' :: (T ++ ['}'])).reverse = '}' :: (T.reverse ++ ['{']) := by simp
  rw [h2, List.dropWhile_cons_of_neg (by simp [isJsWsChar_rbrace])]
  simp

theorem extractProps_propsList : ∀ (m : List (String × String)),
    extractProps (m.map (fun p => (p.1, Json.obj [("type", Json.str p.2)]))) =
      some (m.map (fun p => (p.1, Json.str p.2))) := by
  intro m
  induction m with
  | nil => rfl
  | cons p m ih =>
    obtain ⟨k, t⟩ := p
    have hl : List.lookup "type" [("type", Json.str t)] = some (Json.str t) := rfl
    simp [extractProps, hl, ih]

/-- `extractSchemaFromJsonSchema` recovers the mapping from the serialized
schema document of a non-empty mapping with distinct keys. -/
theorem extract_genText (mh : String × String) (mt : List (String × String))
    (hnd : ((mh :: mt).map Prod.fst).Nodup) :
    extractSchemaFromJsonSchema (String.mk (genSchemaText (mh :: mt))) =
      some ((mh :: mt).map (fun p => (p.1, Json.str p.2))) := by
  rw [extractSchemaFromJsonSchema]
  rw [jsTrim_genText, parseJson_genText mh mt hnd]
  have hprop : getProp (schemaDoc (mh :: mt)) "properties" =
      some (.obj ((mh :: mt).map (fun p => (p.1, Json.obj [("type", Json.str p.2)])))) := rfl
  rw [schemaDoc]
  show (match getProp (schemaDoc (mh :: mt)) "properties" with
    | none => none
    | some props =>
      if jsTruthy props then
        match extractProps (jEntries props) with
        | none => none
        | some schema => if 0 < schema.length then some schema else none
      else none) = some ((mh :: mt).map (fun p => (p.1, Json.str p.2)))
  rw [hprop]
  show (match extractProps (jEntries (.obj ((mh :: mt).map
      (fun p => (p.1, Json.obj [("type", Json.str p.2)]))))) with
    | none => none
    | some schema => if 0 < schema.length then some schema else none) =
    some ((mh :: mt).map (fun p => (p.1, Json.str p.2)))
  rw [show jEntries (.obj ((mh :: mt).map
      (fun p => (p.1, Json.obj [("type", Json.str p.2)])))) =
      (mh :: mt).map (fun p => (p.1, Json.obj [("type", Json.str p.2)])) from rfl]
  rw [extractProps_propsList]
  simp

/-- A parsed document has a property whose value carries a `type` entry. -/
def hasTypedProperty (j : Json) : Bool :=
  match getProp j "properties" with
  | some props => (jEntries props).any (fun e =>
      match e.2 with
      | .obj fields => (fields.lookup "type").isSome
      | _ => false)
  | none => false

theorem extractProps_no_typed : ∀ entries : List (String × Json),
    (entries.any (fun e =>
      match e.2 with
      | .obj fields => (fields.lookup "type").isSome
      | _ => false)) = false →
    extractProps entries = none ∨ extractProps entries = some [] := by
  intro entries
  induction entries with
  | nil => intro _; right; rfl
  | cons e rest ih =>
    intro h
    obtain ⟨k, v⟩ := e
    simp only [List.any_cons, Bool.or_eq_false_iff] at h
    cases v with
    | null => left; rfl
    | obj fields =>
      have hl : fields.lookup "type" = none := by
        have h1 : (List.lookup "type" fields).isSome = false := h.1
        cases hx : fields.lookup "type" with
        | none => rfl
        | some t => rw [hx] at h1; simp at h1
      have hrec := ih h.2
      simp only [extractProps, hl]
      exact hrec
    | bool b => simpa [extractProps] using ih h.2
    | num l => simpa [extractProps] using ih h.2
    | str s => simpa [extractProps] using ih h.2
    | arr xs => simpa [extractProps] using ih h.2

/-- C1.  For every non-empty field-to-type mapping `m` (distinct keys,
modelling a `Record<string, string>`) whose keys and values are all
non-empty, expanding to a JSON-schema text via
`generateJsonSchemaFromSchema` and then extracting the simple schema back
via `extractSchemaFromJsonSchema` yields exactly `m` (its string values
re-embedded as `Json.str`, the runtime value the extractor stores). -/
theorem simplify_expand_roundtrip (m : List (String × String))
    (hne : m ≠ []) (hnd : (m.map Prod.fst).Nodup)
    (hfields : ∀ p ∈ m, p.1 ≠ "" ∧ p.2 ≠ "") :
    ∃ text, generateJsonSchemaFromSchema m = some text ∧
      extractSchemaFromJsonSchema text = some (m.map (fun p => (p.1, Json.str p.2))) := by
  refine ⟨String.mk (genSchemaText m), ?_, ?_⟩
  · have hany : (m.any fun p => p.1.isEmpty || p.2.isEmpty) = false := by
      rw [List.any_eq_false]
      intro p hp
      have := hfields p hp
      simp [String.isEmpty_iff, this.1, this.2]
    simp [generateJsonSchemaFromSchema, hany, hne]
  · cases m with
    | nil => exact absurd rfl hne
    | cons mh mt => exact extract_genText mh mt hnd

/-- Witness for C1 at a concrete two-field mapping. -/
theorem simplify_expand_roundtrip_witness :
    ∃ text, generateJsonSchemaFromSchema [("foo", "string"), ("bar", "number")] = some text ∧
      extractSchemaFromJsonSchema text =
        some [("foo", Json.str "string"), ("bar", Json.str "number")] :=
  simplify_expand_roundtrip [("foo", "string"), ("bar", "number")]
    (by decide) (by decide) (by decide)

/-- C8.  `generateJsonSchemaFromSchema` returns `null` for the empty
mapping and for any mapping containing an empty (falsy) field name or
type; otherwise it returns the two-space-indented serialization
(`genSchemaText`) of the object-typed document `schemaDoc`, which lists
every field in `required` and gives each field a `{type: t}` property
(witnessed here by parsing the returned text back to `schemaDoc`). -/
theorem generate_json_schema_spec :
    generateJsonSchemaFromSchema [] = none ∧
    (∀ m : List (String × String), (∃ p ∈ m, p.1 = "" ∨ p.2 = "") →
      generateJsonSchemaFromSchema m = none) ∧
    (∀ m : List (String × String), m ≠ [] → (∀ p ∈ m, p.1 ≠ "" ∧ p.2 ≠ "") →
      (m.map Prod.fst).Nodup →
      generateJsonSchemaFromSchema m = some (String.mk (genSchemaText m)) ∧
        parseJson (String.mk (genSchemaText m)) = some (schemaDoc m)) := by
  refine ⟨rfl, ?_, ?_⟩
  · intro m ⟨p, hp, hfalsy⟩
    have hany : (m.any fun p => p.1.isEmpty || p.2.isEmpty) = true := by
      rw [List.any_eq_true]
      refine ⟨p, hp, ?_⟩
      rcases hfalsy with h | h <;> simp [String.isEmpty_iff, h]
    simp [generateJsonSchemaFromSchema, hany]
  · intro m hne hfields hnd
    constructor
    · have hany : (m.any fun p => p.1.isEmpty || p.2.isEmpty) = false := by
        rw [List.any_eq_false]
        intro p hp
        have := hfields p hp
        simp [String.isEmpty_iff, this.1, this.2]
      simp [generateJsonSchemaFromSchema, hany, hne]
    · cases m with
      | nil => exact absurd rfl hne
      | cons mh mt => exact parseJson_genText mh mt hnd

/-- Witness for C8's conditional clauses at concrete inputs. -/
theorem generate_json_schema_spec_witness :
    generateJsonSchemaFromSchema [("a", "")] = none ∧
    (generateJsonSchemaFromSchema [("a", "string")] =
      some (String.mk (genSchemaText [("a", "string")])) ∧
      parseJson (String.mk (genSchemaText [("a", "string")])) =
        some (schemaDoc [("a", "string")])) :=
  ⟨generate_json_schema_spec.2.1 [("a", "")] ⟨("a", ""), by decide, by decide⟩,
   generate_json_schema_spec.2.2 [("a", "string")] (by decide) (by decide) (by decide)⟩

/-- C9.  `extractSchemaFromJsonSchema` is a total function (it cannot
raise: every parse failure or thrown `TypeError` in the source collapses
to the `null` return, modelled as `none`); on text that fails both the
direct parse and the cleanup-then-reparse attempt it returns `none`, and
on text whose parsed document has no property with a `type` entry it also
returns `none`. -/
theorem extract_schema_total_spec :
    (∀ s : String, parseJson (jsTrim s) = none →
      parseJson (jsTrim (cleanEscapes s)) = none →
      extractSchemaFromJsonSchema s = none) ∧
    (∀ (s : String) (j : Json), parseJson (jsTrim s) = some j →
      hasTypedProperty j = false → extractSchemaFromJsonSchema s = none) := by
  constructor
  · intro s h1 h2
    rw [extractSchemaFromJsonSchema, h1, h2]
  · intro s j h1 hnt
    rw [extractSchemaFromJsonSchema, h1]
    cases j with
    | null => rfl
    | bool b => rfl
    | num l => rfl
    | str t => rfl
    | arr xs => rfl
    | obj ms =>
      show (match getProp (.obj ms) "properties" with
        | none => none
        | some props =>
          if jsTruthy props then
            match extractProps (jEntries props) with
            | none => none
            | some schema => if 0 < schema.length then some schema else none
          else none) = none
      rw [hasTypedProperty] at hnt
      cases hprop : getProp (.obj ms) "properties" with
      | none => rfl
      | some props =>
        rw [hprop] at hnt
        simp only []
        by_cases ht : jsTruthy props = true
        · rcases extractProps_no_typed (jEntries props) hnt with hn | hn <;>
            simp [ht, hn]
        · simp [Bool.not_eq_true] at ht
          simp [ht]

/-- Witness for C9 at concrete inputs: non-JSON text, and a parsed
document without typed properties. -/
theorem extract_schema_total_spec_witness :
    extractSchemaFromJsonSchema "not json at all" = none ∧
    extractSchemaFromJsonSchema "\x7b\"properties\": \x7b\x7d\x7d" = none :=
  ⟨extract_schema_total_spec.1 "not json at all" (by rfl) (by rfl),
   extract_schema_total_spec.2 "\x7b\"properties\": \x7b\x7d\x7d" (.obj [("properties", .obj [])])
    (by rfl) (by rfl)⟩

/-! ## The node sidebar: data model -/

/-- Per-model constraints supplied by the node-type registry
(`ModelConstraints` of `modelMetadataSchemas`).  Numbers are modelled as
rationals (exact for the arithmetic the handlers perform). -/
structure ModelConstraints where
  min_temperature : ℚ
  max_temperature : ℚ
  max_tokens : ℚ
  supports_JSON_output : Bool
deriving Repr

/-- The `llm_info` sub-object of a node configuration; `none` models an
absent (`undefined`) field. -/
structure LLMInfo where
  model : Option String := none
  temperature : Option ℚ := none
  max_tokens : Option ℚ := none
deriving Repr

/-- A node configuration (`FlowWorkflowNodeConfig`), restricted to the
fields the verified handlers read or write.  All handlers carry the
remaining fields through object spreads unchanged, so omitting them loses
no generality for the claims.  `output_schema` values are kept as `Json`
(the runtime values the schema extractor stores). -/
structure NodeConfig where
  title : Option String := none
  llm_info : LLMInfo := {}
  output_schema : Option (List (String × Json)) := none
  output_json_schema : Option String := none
deriving Repr

/-- Presentation metadata of a registry entry (`visual_tag`). -/
structure VisualTag where
  acronym : String
  color : String
deriving Repr

/-- A node-type registry entry (`FlowWorkflowNodeType`), restricted to the
fields the verified logic uses. -/
structure FlowWorkflowNodeType where
  name : String
  config : NodeConfig := {}
  visual_tag : VisualTag := ⟨"", ""⟩
  logo : Option String := none
  category : Option String := none
  model_constraints : Option (List (String × ModelConstraints)) := none

/-- `getModelConstraints` (source lines 138-143): `null` when there is no
node schema, no declared constraints, or no entry for `modelId`. -/
def getModelConstraints (nodeSchema : Option FlowWorkflowNodeType) (modelId : String) :
    Option ModelConstraints :=
  match nodeSchema with
  | none => none
  | some ns =>
    match ns.model_constraints with
    | none => none
    | some mc => mc.lookup modelId

/-- JavaScript `a || b` for an optional number: `undefined` and `0` are
falsy (`NaN` does not arise in the verified paths). -/
def jsOrNum (a : Option ℚ) (b : ℚ) : ℚ :=
  match a with
  | none => b
  | some x => if x = 0 then b else x

/-- The model-selection handler inside `renderEnumSelect` (source lines
306-335): build one updated configuration with `llm_info.model` set to the
selected id and, when the node type declares constraints for it,
`max_tokens := Math.min(current || max_tokens, max_tokens)` and
`temperature := Math.min(Math.max(current || 0.7, min_temperature),
max_temperature)`; that single object is both stored locally and
dispatched once via `updateNodeConfigOnly`, so the three fields commit
together atomically. -/
def changeModel (nodeSchema : Option FlowWorkflowNodeType) (cfg : NodeConfig)
    (selectedModelId : String) : NodeConfig :=
  let modelConstraints := getModelConstraints nodeSchema selectedModelId
  { cfg with llm_info :=
      match modelConstraints with
      | none => { cfg.llm_info with model := some selectedModelId }
      | some c =>
        { cfg.llm_info with
          model := some selectedModelId
          max_tokens := some (min (jsOrNum cfg.llm_info.max_tokens c.max_tokens) c.max_tokens)
          temperature := some (min (max (jsOrNum cfg.llm_info.temperature 0.7)
            c.min_temperature) c.max_temperature) } }

/-- C2.  When the node type declares constraints for the newly selected
model, `changeModel` commits - in the one atomic config object - the new
model id, a temperature clamped into
`[min_temperature, max_temperature]` (an unset temperature defaulting to
0.7 before clamping), and a `max_tokens` of at most the model's
`max_tokens`; in particular `max_tokens` 8000 against a 4096-token model
commits 4096, and an unset temperature against `[0, 1]` commits 0.7. -/
theorem changeModel_clamps (nodeSchema : Option FlowWorkflowNodeType)
    (cfg : NodeConfig) (modelId : String) (c : ModelConstraints)
    (hc : getModelConstraints nodeSchema modelId = some c) :
    (changeModel nodeSchema cfg modelId).llm_info.model = some modelId ∧
    (c.min_temperature ≤ c.max_temperature →
      ∃ t, (changeModel nodeSchema cfg modelId).llm_info.temperature = some t ∧
        c.min_temperature ≤ t ∧ t ≤ c.max_temperature) ∧
    (∃ mt, (changeModel nodeSchema cfg modelId).llm_info.max_tokens = some mt ∧
      mt ≤ c.max_tokens) ∧
    (cfg.llm_info.temperature = none →
      (changeModel nodeSchema cfg modelId).llm_info.temperature =
        some (min (max 0.7 c.min_temperature) c.max_temperature)) ∧
    (cfg.llm_info.max_tokens = some 8000 → c.max_tokens = 4096 →
      (changeModel nodeSchema cfg modelId).llm_info.max_tokens = some 4096) ∧
    (cfg.llm_info.temperature = none → c.min_temperature = 0 → c.max_temperature = 1 →
      (changeModel nodeSchema cfg modelId).llm_info.temperature = some 0.7) := by
  have hll : (changeModel nodeSchema cfg modelId).llm_info =
      { cfg.llm_info with
        model := some modelId
        max_tokens := some (min (jsOrNum cfg.llm_info.max_tokens c.max_tokens) c.max_tokens)
        temperature := some (min (max (jsOrNum cfg.llm_info.temperature 0.7)
          c.min_temperature) c.max_temperature) } := by
    simp [changeModel, hc]
  refine ⟨by simp [hll], ?_, ?_, ?_, ?_, ?_⟩
  · intro hle
    exact ⟨min (max (jsOrNum cfg.llm_info.temperature 0.7) c.min_temperature)
        c.max_temperature,
      by simp [hll], le_min (le_max_right _ _) hle, min_le_right _ _⟩
  · exact ⟨min (jsOrNum cfg.llm_info.max_tokens c.max_tokens) c.max_tokens,
      by simp [hll], min_le_right _ _⟩
  · intro ht; simp [hll, ht, jsOrNum]
  · intro hmt hmax; simp [hll, hmt, hmax, jsOrNum]; norm_num
  · intro ht h0 h1; simp [hll, ht, h0, h1, jsOrNum]; norm_num

/-- Concrete registry entry used by the C2 / C10 witnesses: one model
`m2` with temperature range `[0, 1]` and a 4096-token limit. -/
def llmNodeTypeFixture : FlowWorkflowNodeType where
  name := "LLMNode"
  model_constraints := some [("m2", ⟨0, 1, 4096, true⟩)]

/-- Concrete configuration with `max_tokens` 8000 and no temperature. -/
def cfg8000Fixture : NodeConfig where
  llm_info := { model := some "m1", max_tokens := some 8000 }

/-- Concrete configuration with falsy-but-set temperature and tokens. -/
def cfgZeroFixture : NodeConfig where
  llm_info := { model := some "m1", temperature := some 0, max_tokens := some 0 }

/-- Witness for C2 at a concrete configuration and model table. -/
theorem changeModel_clamps_witness :
    (changeModel (some llmNodeTypeFixture) cfg8000Fixture "m2").llm_info.model = some "m2" ∧
    (changeModel (some llmNodeTypeFixture) cfg8000Fixture "m2").llm_info.max_tokens =
      some 4096 ∧
    (changeModel (some llmNodeTypeFixture) cfg8000Fixture "m2").llm_info.temperature =
      some 0.7 := by
  have h := changeModel_clamps (some llmNodeTypeFixture) cfg8000Fixture "m2"
    ⟨0, 1, 4096, true⟩ rfl
  exact ⟨h.1, h.2.2.2.2.1 rfl rfl, h.2.2.2.2.2 rfl rfl rfl⟩

/-- C10.  The model-change handler treats a falsy-but-set current value as
unset: a temperature of exactly 0 is replaced by the clamped 0.7 default,
and a `max_tokens` of 0 (or unset) is replaced by the model's
`max_tokens`. -/
theorem changeModel_falsy_as_unset (nodeSchema : Option FlowWorkflowNodeType)
    (cfg : NodeConfig) (modelId : String) (c : ModelConstraints)
    (hc : getModelConstraints nodeSchema modelId = some c) :
    (cfg.llm_info.temperature = some 0 →
      (changeModel nodeSchema cfg modelId).llm_info.temperature =
        some (min (max 0.7 c.min_temperature) c.max_temperature)) ∧
    (cfg.llm_info.max_tokens = none ∨ cfg.llm_info.max_tokens = some 0 →
      (changeModel nodeSchema cfg modelId).llm_info.max_tokens =
        some c.max_tokens) := by
  have hll : (changeModel nodeSchema cfg modelId).llm_info =
      { cfg.llm_info with
        model := some modelId
        max_tokens := some (min (jsOrNum cfg.llm_info.max_tokens c.max_tokens) c.max_tokens)
        temperature := some (min (max (jsOrNum cfg.llm_info.temperature 0.7)
          c.min_temperature) c.max_temperature) } := by
    simp [changeModel, hc]
  constructor
  · intro ht; simp [hll, ht, jsOrNum]
  · rintro (hmt | hmt) <;> simp [hll, hmt, jsOrNum]

/-- Witness for C10: temperature 0 commits the clamped default, and
`max_tokens` 0 commits the model's limit. -/
theorem changeModel_falsy_as_unset_witness :
    (changeModel (some llmNodeTypeFixture) cfgZeroFixture "m2").llm_info.temperature =
      some 0.7 ∧
    (changeModel (some llmNodeTypeFixture) cfgZeroFixture "m2").llm_info.max_tokens =
      some 4096 := by
  have h := changeModel_falsy_as_unset (some llmNodeTypeFixture) cfgZeroFixture "m2"
    ⟨0, 1, 4096, true⟩ rfl
  constructor
  · rw [h.1 rfl]; norm_num
  · exact h.2 (Or.inr rfl)

/-- The `output_json_schema` editor's change handler (source lines
576-608): empty text updates only `output_json_schema` (through
`handleInputChange`); when `extractSchemaFromJsonSchema` succeeds, both
views are placed in one `updates` object, merged into the configuration
and dispatched once (`updateNodeConfigOnly`), so they commit together;
when extraction fails, only `output_json_schema` is committed.  The
handler always dispatches a single full-config object. -/
def updateOutputJsonSchema (cfg : NodeConfig) (value : String) : NodeConfig :=
  if (jsTrim value).isEmpty then { cfg with output_json_schema := some value }
  else
    match extractSchemaFromJsonSchema value with
    | some simpleSchema =>
        { cfg with output_json_schema := some value, output_schema := some simpleSchema }
    | none => { cfg with output_json_schema := some value }

/-- C3.  Editing the `output_json_schema` text commits: only that field
when the text is empty; both the original text and the extracted mapping
together when `extractSchemaFromJsonSchema` succeeds; and only the text -
leaving `output_schema` unchanged, the two views diverging - when
extraction fails.  In particular the schema
`{"properties":{"foo":{"type":"string"}}}` commits
`output_schema = {foo: "string"}` together with the original text.
In every case all other configuration fields are unchanged. -/
theorem updateOutputJsonSchema_spec :
    (∀ (cfg : NodeConfig) (v : String), (jsTrim v).isEmpty = true →
      updateOutputJsonSchema cfg v =
        { cfg with output_json_schema := some v }) ∧
    (∀ (cfg : NodeConfig) (v : String) (sch : List (String × Json)),
      (jsTrim v).isEmpty = false → extractSchemaFromJsonSchema v = some sch →
      updateOutputJsonSchema cfg v =
        { cfg with output_json_schema := some v, output_schema := some sch }) ∧
    (∀ (cfg : NodeConfig) (v : String),
      (jsTrim v).isEmpty = false → extractSchemaFromJsonSchema v = none →
      updateOutputJsonSchema cfg v = { cfg with output_json_schema := some v }) ∧
    (∀ cfg : NodeConfig,
      updateOutputJsonSchema cfg "\x7b\"properties\":\x7b\"foo\":\x7b\"type\":\"string\"\x7d\x7d\x7d" =
        { cfg with
          output_json_schema := some "\x7b\"properties\":\x7b\"foo\":\x7b\"type\":\"string\"\x7d\x7d\x7d",
          output_schema := some [("foo", Json.str "string")] }) := by
  refine ⟨?_, ?_, ?_, ?_⟩
  · intro cfg v h
    simp [updateOutputJsonSchema, h]
  · intro cfg v sch hne hex
    simp [updateOutputJsonSchema, hne, hex]
  · intro cfg v hne hex
    simp [updateOutputJsonSchema, hne, hex]
  · intro cfg
    have hne : (jsTrim "\x7b\"properties\":\x7b\"foo\":\x7b\"type\":\"string\"\x7d\x7d\x7d").isEmpty = false := by
      rfl
    have hex : extractSchemaFromJsonSchema "\x7b\"properties\":\x7b\"foo\":\x7b\"type\":\"string\"\x7d\x7d\x7d" =
        some [("foo", Json.str "string")] := by rfl
    simp [updateOutputJsonSchema, hne, hex]

/-- Witness for C3 at a concrete configuration, covering the success,
empty and failure cases. -/
theorem updateOutputJsonSchema_spec_witness :
    updateOutputJsonSchema { title := some "node_1" }
        "\x7b\"properties\":\x7b\"foo\":\x7b\"type\":\"string\"\x7d\x7d\x7d" =
      { title := some "node_1",
        output_json_schema := some "\x7b\"properties\":\x7b\"foo\":\x7b\"type\":\"string\"\x7d\x7d\x7d",
        output_schema := some [("foo", Json.str "string")] } ∧
    updateOutputJsonSchema { title := some "node_1" } "" =
      { title := some "node_1", output_json_schema := some "" } ∧
    updateOutputJsonSchema { title := some "node_1" } "not json" =
      { title := some "node_1", output_json_schema := some "not json" } :=
  ⟨updateOutputJsonSchema_spec.2.2.2 { title := some "node_1" },
   updateOutputJsonSchema_spec.1 { title := some "node_1" } "" (by rfl),
   updateOutputJsonSchema_spec.2.2.1 { title := some "node_1" } "not json"
    (by rfl) (by rfl)⟩

/-! ## Upstream-schema collection -/

/-- A graph edge, restricted to the fields `collectIncomingSchema`
reads. -/
structure FlowEdge where
  source : String
  target : String

/-- A graph node as read from the store; only `id` is consulted by
`collectIncomingSchema`. -/
structure FlowNode where
  id : String

/-- JavaScript `a || b` for an optional string (absent and empty are
falsy). -/
def jsOrStr (a : Option String) (b : String) : String :=
  match a with
  | none => b
  | some s => if s.isEmpty then b else s

/-- `collectIncomingSchema` (source lines 169-183): filter the edges whose
target is `nodeID`, resolve each source node, and for each resolved node
whose committed config declares an `output_schema`, emit
`"<title-or-id>.<field>"` per declared field (the config's title when
truthy, else the node id), accumulating in edge order by
`reduce`. -/
def collectIncomingSchema (nodeID : String) (edges : List FlowEdge)
    (nodes : List FlowNode) (allNodeConfigs : List (String × NodeConfig)) :
    List String :=
  let incomingEdges := edges.filter (fun e => e.target == nodeID)
  let incomingNodes := incomingEdges.map (fun e => nodes.find? (fun n => n.id == e.source))
  incomingNodes.foldl (fun acc onode =>
    match onode with
    | none => acc
    | some n =>
      match allNodeConfigs.lookup n.id with
      | none => acc
      | some config =>
        match config.output_schema with
        | none => acc
        | some os =>
          acc ++ os.map (fun p => (jsOrStr config.title n.id) ++ "." ++ p.1)) []

/-- The per-edge contribution of `collectIncomingSchema`. -/
def incomingFieldsOfEdge (nodes : List FlowNode)
    (allNodeConfigs : List (String × NodeConfig)) (e : FlowEdge) : List String :=
  match nodes.find? (fun n => n.id == e.source) with
  | none => []
  | some n =>
    match allNodeConfigs.lookup n.id with
    | none => []
    | some config =>
      match config.output_schema with
      | none => []
      | some os => os.map (fun p => (jsOrStr config.title n.id) ++ "." ++ p.1)

theorem foldl_append_eq_flatten {α β : Type} (f : α → List β) :
    ∀ (l : List α) (init : List β),
      l.foldl (fun acc x => acc ++ f x) init = init ++ (l.map f).flatten := by
  intro l
  induction l with
  | nil => intro init; simp
  | cons x l ih => intro init; simp [List.foldl_cons, ih]

theorem collect_aux (cfgs : List (String × NodeConfig)) :
    ∀ (l : List (Option FlowNode)) (acc : List String),
    l.foldl (fun acc onode =>
      match onode with
      | none => acc
      | some n =>
        match cfgs.lookup n.id with
        | none => acc
        | some config =>
          match config.output_schema with
          | none => acc
          | some os =>
            acc ++ os.map (fun p => (jsOrStr config.title n.id) ++ "." ++ p.1)) acc =
    acc ++ (l.map (fun onode =>
      match onode with
      | none => []
      | some n =>
        match cfgs.lookup n.id with
        | none => []
        | some config =>
          match config.output_schema with
          | none => []
          | some os =>
            os.map (fun p => (jsOrStr config.title n.id) ++ "." ++ p.1))).flatten := by
  intro l
  induction l with
  | nil => intro acc; simp
  | cons o l ih =>
    intro acc
    cases o with
    | none => simp [ih]
    | some n =>
      cases hc : cfgs.lookup n.id with
      | none => simp [hc, ih]
      | some config =>
        cases hos : config.output_schema with
        | none => simp [hc, hos, ih]
        | some os => simp [hc, hos, ih]

/-- C6.  `collectIncomingSchema` returns, in edge iteration order and then
property-declaration order within each source, one string
`"<sourceTitleOrId>.<fieldName>"` per declared `output_schema` field of
each incoming source node, using the source config's title when present
(truthy) else the source node's id; and on a node with two incoming edges
from sources titled `A` (`{x: string}`) and `B` (`{y: number}`) it returns
`["A.x", "B.y"]`. -/
theorem collectIncomingSchema_spec :
    (∀ (nodeID : String) (edges : List FlowEdge) (nodes : List FlowNode)
      (cfgs : List (String × NodeConfig)),
      collectIncomingSchema nodeID edges nodes cfgs =
        ((edges.filter (fun e => e.target == nodeID)).map
          (incomingFieldsOfEdge nodes cfgs)).flatten) ∧
    collectIncomingSchema "n"
      [⟨"a", "n"⟩, ⟨"b", "n"⟩] [⟨"a"⟩, ⟨"b"⟩]
      [("a", { title := some "A", output_schema := some [("x", Json.str "string")] }),
       ("b", { title := some "B", output_schema := some [("y", Json.str "number")] })] =
      ["A.x", "B.y"] := by
  constructor
  · intro nodeID edges nodes cfgs
    rw [collectIncomingSchema]
    rw [collect_aux cfgs]
    rw [List.nil_append, List.map_map]
    congr 1
  · rfl

/-! ## Node factory (`src/frontend/src/utils/nodeFactory.ts`) -/

/-- A node position. -/
structure Position where
  x : ℚ
  y : ℚ

/-- Measured node dimensions. -/
structure Dimensions where
  width : ℚ
  height : ℚ

/-- The presentation payload `node.data` built by `createNode`. -/
structure NodeData where
  title : String
  acronym : String
  color : String
  logo : Option String
  category : Option String

/-- The graph-node record built by `createNode` (`FlowWorkflowNode`). -/
structure FlowWorkflowNode where
  id : String
  type : String
  position : Position
  measured : Option Dimensions
  parentId : Option String
  expandParent : Option Bool
  extent : Option String
  data : NodeData
  width : Option ℚ
  height : Option ℚ

/-- JavaScript truthiness of the optional `parentId` string. -/
def strTruthy : Option String → Bool
  | none => false
  | some s => !s.isEmpty

/-- The registry scan of `createNode` (lines 14-21): first matching entry
over categories in order. -/
def findTypeInCategories : List (String × List FlowWorkflowNodeType) → String →
    Option FlowWorkflowNodeType
  | [], _ => none
  | (_, ts) :: rest, type =>
    match ts.find? (fun n => n.name == type) with
    | some nt => some nt
    | none => findTypeInCategories rest type

/-- `createNode` (`nodeFactory.ts` lines 6-53): look the type up in the
category map; `null` when absent; otherwise build the node record and a
configuration that is a copy of the type's default configuration
(`cloneDeep`, modelled by value copying - the model is pure and the
function touches no store) with `title` overwritten to the caller's
`id`. -/
def createNode (nodeTypes : List (String × List FlowWorkflowNodeType))
    (type id : String) (position : Position) (parentId : Option String)
    (dimensions : Option Dimensions) :
    Option (FlowWorkflowNode × NodeConfig) :=
  match findTypeInCategories nodeTypes type with
  | none => none
  | some nt =>
    let config := { nt.config with title := some id }
    let extent := if strTruthy parentId then some "parent" else none
    let expandParent := if strTruthy parentId then some true else none
    some ({ id := id, type := nt.name, position := position, measured := dimensions,
            parentId := parentId, expandParent := expandParent, extent := extent,
            data := { title := id, acronym := nt.visual_tag.acronym,
                      color := nt.visual_tag.color, logo := nt.logo,
                      category := nt.category },
            width := dimensions.map (fun d => d.width),
            height := dimensions.map (fun d => d.height) },
          config)

/-- C7.  `createNode` returns `null` exactly when the type name is absent
from the registry (the only error condition), and on success the returned
configuration is a copy of the type's default configuration with `title`
overwritten to the caller-supplied id.  The function is pure: it takes no
store and only returns values, so it performs no store mutation in any
case. -/
theorem createNode_spec (nodeTypes : List (String × List FlowWorkflowNodeType))
    (type id : String) (position : Position) (parentId : Option String)
    (dimensions : Option Dimensions) :
    (createNode nodeTypes type id position parentId dimensions = none ↔
      findTypeInCategories nodeTypes type = none) ∧
    (∀ nt, findTypeInCategories nodeTypes type = some nt →
      ∃ node, createNode nodeTypes type id position parentId dimensions =
        some (node, { nt.config with title := some id }) ∧ node.id = id ∧
        node.type = nt.name) := by
  constructor
  · constructor
    · intro h
      cases hf : findTypeInCategories nodeTypes type with
      | none => rfl
      | some nt => rw [createNode, hf] at h; simp at h
    · intro h
      rw [createNode, h]
  · intro nt hf
    refine ⟨{ id := id, type := nt.name, position := position, measured := dimensions,
              parentId := parentId,
              expandParent := if strTruthy parentId then some true else none,
              extent := if strTruthy parentId then some "parent" else none,
              data := { title := id, acronym := nt.visual_tag.acronym,
                        color := nt.visual_tag.color, logo := nt.logo,
                        category := nt.category },
              width := dimensions.map (fun d => d.width),
              height := dimensions.map (fun d => d.height) }, ?_, rfl, rfl⟩
    rw [createNode, hf]

/-- Witness for C7: an unknown type yields `null`; a known type yields
the default configuration with the title overwritten. -/
theorem createNode_spec_witness :
    createNode [("llm", [llmNodeTypeFixture])] "UnknownNode" "node_1" ⟨0, 0⟩ none none =
      none ∧
    (∃ node, createNode [("llm", [llmNodeTypeFixture])] "LLMNode" "node_1" ⟨0, 0⟩ none none =
      some (node, { llmNodeTypeFixture.config with title := some "node_1" }) ∧
      node.id = "node_1" ∧ node.type = "LLMNode") :=
  ⟨(createNode_spec [("llm", [llmNodeTypeFixture])] "UnknownNode" "node_1"
      ⟨0, 0⟩ none none).1.mpr rfl,
   (createNode_spec [("llm", [llmNodeTypeFixture])] "LLMNode" "node_1"
      ⟨0, 0⟩ none none).2 llmNodeTypeFixture rfl⟩

/-! ## Debounced commits (`debouncedDispatch` / `handleInputChange`) -/

/-- One user edit reaching `handleInputChange` (source lines 228-249):
the time it occurs (ms), the full updated configuration it produces, and
whether it originated from a slider. -/
structure EditEvent where
  time : Nat
  cfg : NodeConfig
  isSlider : Bool

/-- Model of the commit pipeline of `handleInputChange` with
`debouncedDispatch` (source lines 190-196): lodash `debounce(fn, 300)`
with default options is a single trailing-edge timer - each slider edit
re-arms it to fire 300ms after that edit with the latest full config, an
already expired timer fires before the next event is processed, and a
non-slider edit dispatches synchronously without touching the timer.
Returns the configurations committed to the store, in order, flushing a
still-pending timer at the end of time. -/
def runCommits : List EditEvent → Option (Nat × NodeConfig) → List NodeConfig
  | [], pending =>
    (match pending with
     | some (_, cfg) => [cfg]
     | none => [])
  | e :: rest, pending =>
    let fired : List NodeConfig :=
      match pending with
      | some (d, cfg) => if d ≤ e.time then [cfg] else []
      | none => []
    let pending2 : Option (Nat × NodeConfig) :=
      match pending with
      | some (d, cfg) => if d ≤ e.time then none else some (d, cfg)
      | none => none
    if e.isSlider then
      fired ++ runCommits rest (some (e.time + 300, e.cfg))
    else
      fired ++ (e.cfg :: runCommits rest pending2)

theorem runCommits_chain_aux : ∀ (es : List EditEvent) (prev : EditEvent),
    (∀ x ∈ es, x.isSlider = true) →
    List.Chain (fun a b => b.time < a.time + 300) prev es →
    runCommits es (some (prev.time + 300, prev.cfg)) =
      [((prev :: es).getLast (List.cons_ne_nil prev es)).cfg] := by
  intro es
  induction es with
  | nil => intro prev _ _; rfl
  | cons e rest ih =>
    intro prev hs hchain
    rcases hchain with _ | ⟨hlt, hchain2⟩
    have hns : ¬(prev.time + 300 ≤ e.time) := by omega
    have hse : e.isSlider = true := hs e (by simp)
    rw [runCommits]
    simp only [if_neg hns]
    rw [hse]
    show runCommits rest (some (e.time + 300, e.cfg)) = _
    rw [ih e (fun x hx => hs x (by simp [hx])) hchain2]
    rw [List.getLast_cons (List.cons_ne_nil e rest)]

/-- C5.  For every sequence of slider-originated edits in which each
consecutive pair is less than 300ms apart, exactly one commit reaches the
store and it carries the last edited configuration only (each new edit
re-arms the trailing-edge 300ms timer, which fires after 300ms of
inactivity); and a non-slider edit bypasses the timer, committing
synchronously at its own position. -/
theorem debounced_commit_spec :
    (∀ (e : EditEvent) (es : List EditEvent),
      (∀ x ∈ e :: es, x.isSlider = true) →
      List.Chain (fun a b => b.time < a.time + 300) e es →
      runCommits (e :: es) none =
        [((e :: es).getLast (List.cons_ne_nil e es)).cfg]) ∧
    (∀ (e : EditEvent) (es : List EditEvent), e.isSlider = false →
      runCommits (e :: es) none = e.cfg :: runCommits es none) := by
  constructor
  · intro e es hs hchain
    have hse : e.isSlider = true := hs e (by simp)
    rw [runCommits, hse]
    show runCommits es (some (e.time + 300, e.cfg)) = _
    exact runCommits_chain_aux es e (fun x hx => hs x (by simp [hx])) hchain
  · intro e es hns
    rw [runCommits, hns]
    rfl

/-- Witness for C5: three rapid slider edits commit once with the last
value only; a single non-slider edit commits synchronously. -/
theorem debounced_commit_spec_witness :
    runCommits [⟨0, cfg8000Fixture, true⟩, ⟨100, cfgZeroFixture, true⟩,
        ⟨200, { title := some "last" }, true⟩] none = [{ title := some "last" }] ∧
    runCommits [⟨0, cfg8000Fixture, false⟩] none = [cfg8000Fixture] :=
  ⟨debounced_commit_spec.1 ⟨0, cfg8000Fixture, true⟩
      [⟨100, cfgZeroFixture, true⟩, ⟨200, { title := some "last" }, true⟩]
      (by intro x hx; fin_cases hx <;> rfl)
      (List.Chain.cons (by decide) (List.Chain.cons (by decide) List.Chain.nil)),
   debounced_commit_spec.2 ⟨0, cfg8000Fixture, false⟩ [] rfl⟩

/-! ## Title editing -/

/-- Modelled from the spec: `convertToPythonVariableName` (imported from
`@/utils/variableNameUtils`, whose source is not part of this excerpt).
Spec 4.5 (`editTitle`): "transforms `value` into a normalized
identifier-safe form (whitespace → underscore, or equivalent) before
committing". -/
def convertToPythonVariableName (value : String) : String :=
  String.mk (value.data.map (fun c =>
    if c = ' ' ∨ c = '\t' ∨ c = '\n' ∨ c = '\r' then '_' else c))

/-- The observable effect of a completed title edit. -/
structure TitleCommit where
  nodeId : String
  newTitle : String
  errorSurfaced : Bool

/-- `handleTitleChangeComplete` (source lines 252-255): always dispatch
`updateNodeTitle` with the converted title.  `errorSurfaced` models the
`showTitleError` alert state (lines 167 and 1076-1085): nothing in the
component ever calls `setShowTitleError(true)`, so no title edit surfaces
a validation error. -/
def handleTitleChangeComplete (nodeID : String) (value : String) : TitleCommit :=
  { nodeId := nodeID
    newTitle := convertToPythonVariableName value
    errorSurfaced := false }

/-- Counterexample to C4 as stated: the whitespace-containing title edit
`"a b"` is auto-corrected and committed, but no user-visible validation
error is surfaced (`showTitleError` is never set to `true` anywhere in
the component). -/
theorem title_error_not_surfaced_counterexample :
    ("a b".data.any (fun c => c = ' ')) = true ∧
    (handleTitleChangeComplete "node_1" "a b").errorSurfaced = false ∧
    (handleTitleChangeComplete "node_1" "a b").newTitle = "a_b" :=
  ⟨by decide, rfl, by decide⟩

theorem convert_fixes_clean (l : List Char)
    (hl : ∀ a ∈ l, ¬(a = ' ' ∨ a = '\t' ∨ a = '\n' ∨ a = '\r')) :
    l.map (fun c => if c = ' ' ∨ c = '\t' ∨ c = '\n' ∨ c = '\r' then '_' else c) = l := by
  induction l with
  | nil => rfl
  | cons a l ih =>
    have ha := hl a (by simp)
    simp only [List.map_cons, if_neg ha]
    rw [ih (fun b hb => hl b (by simp [hb]))]

/-- C4 (amended).  Every title edit is auto-corrected by substituting
separators (underscores) for whitespace and committed; the committed
title never contains whitespace; a whitespace-free title is committed
unchanged (no mutation beyond separator substitution); and no
user-visible validation error is surfaced (the alert state is never
activated in this excerpt). -/
theorem title_autocorrect_spec (nodeID value : String) :
    (handleTitleChangeComplete nodeID value).newTitle =
      convertToPythonVariableName value ∧
    ((handleTitleChangeComplete nodeID value).newTitle.data.all
      (fun c => !(c = ' ' ∨ c = '\t' ∨ c = '\n' ∨ c = '\r'))) = true ∧
    ((value.data.all (fun c => !(c = ' ' ∨ c = '\t' ∨ c = '\n' ∨ c = '\r'))) = true →
      (handleTitleChangeComplete nodeID value).newTitle = value) ∧
    (handleTitleChangeComplete nodeID value).errorSurfaced = false := by
  refine ⟨rfl, ?_, ?_, rfl⟩
  · show ((convertToPythonVariableName value).data.all _) = true
    rw [convertToPythonVariableName]
    rw [List.all_eq_true]
    intro c hc
    simp only [List.mem_map] at hc
    obtain ⟨c0, _, hmap⟩ := hc
    by_cases hws : c0 = ' ' ∨ c0 = '\t' ∨ c0 = '\n' ∨ c0 = '\r'
    · rw [if_pos hws] at hmap
      subst hmap
      decide
    · rw [if_neg hws] at hmap
      subst hmap
      simpa using hws
  · intro hclean
    show convertToPythonVariableName value = value
    rw [List.all_eq_true] at hclean
    have hcl : ∀ a ∈ value.data, ¬(a = ' ' ∨ a = '\t' ∨ a = '\n' ∨ a = '\r') := by
      intro a ha
      simpa using hclean a ha
    show String.mk (value.data.map (fun c =>
      if c = ' ' ∨ c = '\t' ∨ c = '\n' ∨ c = '\r' then '_' else c)) = value
    rw [convert_fixes_clean value.data hcl]

/-- Witness for C4 (amended) at a whitespace-containing title and a
clean title. -/
theorem title_autocorrect_spec_witness :
    (handleTitleChangeComplete "node_1" "my title").newTitle =
      convertToPythonVariableName "my title" ∧
    (handleTitleChangeComplete "node_1" "clean_title").newTitle = "clean_title" ∧
    (handleTitleChangeComplete "node_1" "my title").errorSurfaced = false :=
  ⟨(title_autocorrect_spec "node_1" "my title").1,
   (title_autocorrect_spec "node_1" "clean_title").2.2.1 (by decide),
   (title_autocorrect_spec "node_1" "my title").2.2.2⟩
